import Mathlib

/-!
# Relayer indexer: `handleMessageProcessedEvent`

A shallow embedding of `packages/relayer/indexer/handle_message_received_event.go`.

The Go method talks to four collaborators (the confirmation waiter, the JSON
encoder, the event store and the queue).  Here each collaborator is a field of
an environment record, threaded over an abstract world state `σ`, and every
call the method makes is appended to a log of `Step`s together with the
result the collaborator gave.  The method itself is a plain function returning
the Go `error` value (`none` for `nil`), the log, and the final world state.

Types declared in other packages (`bridge`, `types`, `queue`, `Indexer`) are
given with the fields the method reads; package constants and library
functions it uses (`defaultCtxTimeout`, `defaultConfirmations`, `Hex()`,
`queueName()`, `json.Marshal`) are fields of the environment.
-/

namespace Relayer

/-- Byte strings (`[]byte`). -/
abbrev Bytes := List Nat

/-- A 32-byte hash (`common.Hash`), kept as its numeric value. -/
abbrev Hash := Nat

/-- A 20-byte address (`common.Address`), kept as its numeric value. -/
abbrev Address := Nat

/-- Handle of an Ethereum client (`i.srcEthClient`). -/
abbrev ClientRef := Nat

/-- Publish headers (`map[string]interface{}`); `none` is the Go `nil` map. -/
abbrev Headers := Option (List (String × String))

/-- A Go `error` value that is not `nil`.  `withMessage cause msg` is what
`errors.Wrap(cause, msg)` of `github.com/pkg/errors` builds; `base` is any
other error value. -/
inductive GoError where
  | base (msg : String)
  | withMessage (cause : GoError) (msg : String)
  deriving DecidableEq, Repr

/-- The Go `error` interface: `none` is `nil`. -/
abbrev Error := Option GoError

/-- The function `errors.Wrap`: `nil` stays `nil`, anything else is annotated. -/
def errorsWrap (err : Error) (message : String) : Error :=
  match err with
  | none => none
  | some e => some (GoError.withMessage e message)

/-- The annotation put on an error by the outermost `errors.Wrap`, if any. -/
def GoError.outerMessage : GoError → Option String
  | GoError.base _ => none
  | GoError.withMessage _ msg => some msg

/-- A `context.Context`: a root, or a parent with a timeout attached by
`context.WithTimeout`. -/
inductive Context where
  | background
  | withTimeout (parent : Context) (timeout : Nat)
  deriving DecidableEq, Repr

/-- The fields of `bridge.IBridgeMessage` the handler reads.
`DestChainId` is a `uint64`, `Value` a `*big.Int`. -/
structure Message where
  DestChainId : Nat
  SrcOwner : Address
  Data : Bytes
  Value : Int
  deriving DecidableEq, Repr

/-- The fields of `types.Log` the handler reads. `BlockNumber` is a `uint64`. -/
structure Log where
  TxHash : Hash
  BlockNumber : Nat
  Removed : Bool
  deriving DecidableEq, Repr

/-- The event `bridge.BridgeMessageProcessed`. -/
structure BridgeMessageProcessed where
  Message : Message
  Raw : Log
  deriving DecidableEq, Repr

/-- The body `queue.QueueMessageProcessedBody`. -/
structure QueueMessageProcessedBody where
  ID : Int
  Event : BridgeMessageProcessed
  deriving DecidableEq, Repr

/-- Modelled from the spec: the declaration of the `WatchMode` type is not in
the source file, which only names the constant `CrawlPastBlocks`; the spec
gives the mode as the closed variant live watch / past-block crawl. -/
inductive WatchMode where
  | LiveWatch
  | CrawlPastBlocks
  deriving DecidableEq, Repr

/-- The fields of `Indexer` the handler reads. -/
structure Indexer where
  srcChainId : Int
  watchMode : WatchMode
  srcEthClient : ClientRef
  deriving DecidableEq, Repr

/-- Result of a call that returns only an `error`. -/
abbrev ErrResult := Error

/-- Result of a call that returns a value and an `error`: `Sum.inl` is the
error case, `Sum.inr` the value. -/
abbrev ValResult (α : Type) := GoError ⊕ α

/-- The arguments of one `saveEventToDB` call, in source order. -/
structure SaveRequest where
  ctx : Context
  marshaled : Bytes
  status : String
  chainID : Int
  kind : Nat
  owner : String
  data : Bytes
  value : Int
  blockNumber : Nat
  deriving DecidableEq, Repr

/-- The arguments of one `queue.Publish` call, in source order. -/
structure PublishRequest where
  ctx : Context
  queueName : String
  msg : Bytes
  headers : Headers
  deriving DecidableEq, Repr

/-- The arguments of one `relayer.WaitConfirmations` call, in source order. -/
structure WaitRequest where
  ctx : Context
  client : ClientRef
  confirmations : Nat
  txHash : Hash
  deriving DecidableEq, Repr

/-- Everything the handler uses but does not define: package constants,
library functions and the collaborators.  Collaborators that touch the
outside world transform the world state `σ`.  The two `json.Marshal` calls are
the same deterministic encoder: the body of line 87 holds only the integer `ID`
and the very event that line 67 serialized, so when the event serializes the
body serializes too (`jsonMarshalBody_of_event`). -/
structure Env (σ : Type) where
  defaultCtxTimeout : Nat
  defaultConfirmations : Int
  addressHex : Address → String
  queueName : Indexer → String
  WaitConfirmations : WaitRequest → σ → ErrResult × σ
  jsonMarshalEvent : BridgeMessageProcessed → ValResult Bytes
  saveEventToDB : SaveRequest → σ → ValResult Int × σ
  jsonMarshalBody : QueueMessageProcessedBody → ValResult Bytes
  Publish : PublishRequest → σ → ErrResult × σ
  jsonMarshalBody_of_event : ∀ (id : Int) (event : BridgeMessageProcessed) (m : Bytes),
    jsonMarshalEvent event = Sum.inr m → ∃ p, jsonMarshalBody ⟨id, event⟩ = Sum.inr p

/-- One collaborator call made by the handler, with the result it got. -/
inductive Step where
  | WaitConfirmations (req : WaitRequest) (result : ErrResult)
  | jsonMarshalEvent (event : BridgeMessageProcessed) (result : ValResult Bytes)
  | saveEventToDB (req : SaveRequest) (result : ValResult Int)
  | jsonMarshalBody (body : QueueMessageProcessedBody) (result : ValResult Bytes)
  | Publish (req : PublishRequest) (result : ErrResult)
  deriving DecidableEq, Repr

/-- What one run of the handler yields: the returned `error`, the calls made
in order, and the world after the run. -/
structure Outcome (σ : Type) where
  err : Error
  steps : List Step
  world : σ

/-- The conversion `uint64(x)` of a Go `int`. -/
def uint64OfInt (x : Int) : Nat := (x % (2 ^ 64 : Int)).toNat

/-- The expression `new(big.Int).SetUint64(x)`. -/
def bigIntSetUint64 (x : Nat) : Int := Int.ofNat x

/-- The part of the handler from `json.Marshal(event)` to the end
(source lines 67-103). -/
def persistAndPublish {σ : Type} (env : Env σ) (i : Indexer) (ctx : Context)
    (chainID : Int) (event : BridgeMessageProcessed) (done : List Step) (w : σ) :
    Outcome σ :=
  match env.jsonMarshalEvent event with
  | Sum.inl err =>
    ⟨errorsWrap (some err) "json.Marshal(event)",
      done ++ [Step.jsonMarshalEvent event (Sum.inl err)], w⟩
  | Sum.inr marshaled =>
    let req : SaveRequest :=
      ⟨ctx, marshaled, "0x", chainID, 1, env.addressHex event.Message.SrcOwner,
        event.Message.Data, event.Message.Value, event.Raw.BlockNumber⟩
    let done1 := done ++ [Step.jsonMarshalEvent event (Sum.inr marshaled)]
    match env.saveEventToDB req w with
    | (Sum.inl err, w1) =>
      ⟨errorsWrap (some err) "i.saveEventToDB",
        done1 ++ [Step.saveEventToDB req (Sum.inl err)], w1⟩
    | (Sum.inr id, w1) =>
      let msg : QueueMessageProcessedBody := ⟨id, event⟩
      let done2 := done1 ++ [Step.saveEventToDB req (Sum.inr id)]
      match env.jsonMarshalBody msg with
      | Sum.inl err =>
        ⟨errorsWrap (some err) "json.Marshal",
          done2 ++ [Step.jsonMarshalBody msg (Sum.inl err)], w1⟩
      | Sum.inr marshalledMsg =>
        let preq : PublishRequest := ⟨ctx, env.queueName i, marshalledMsg, none⟩
        let done3 := done2 ++ [Step.jsonMarshalBody msg (Sum.inr marshalledMsg)]
        match env.Publish preq w1 with
        | (some err, w2) =>
          ⟨errorsWrap (some err) "i.queue.Publish",
            done3 ++ [Step.Publish preq (some err)], w2⟩
        | (none, w2) =>
          ⟨none, done3 ++ [Step.Publish preq none], w2⟩

/-- The part of the handler after the confirmation wait (source lines 60-103):
the watch-mode check, then persist and publish. -/
def afterConfirmations {σ : Type} (env : Env σ) (i : Indexer) (ctx : Context)
    (chainID : Int) (event : BridgeMessageProcessed) (done : List Step) (w : σ) :
    Outcome σ :=
  if i.watchMode = WatchMode.CrawlPastBlocks then
    ⟨none, done, w⟩
  else
    persistAndPublish env i ctx chainID event done w

/-- The method `Indexer.handleMessageProcessedEvent` (source lines 16-104):
chain check, removed check, confirmation wait when `waitForConfirmations` is
set, then the watch-mode check, persist and publish.  The `slog` calls and the
deferred cancel of the confirmation context have no effect on the result or on
the collaborator calls and are left out. -/
def handleMessageProcessedEvent {σ : Type} (env : Env σ) (i : Indexer) (ctx : Context)
    (chainID : Int) (event : BridgeMessageProcessed) (waitForConfirmations : Bool)
    (w : σ) : Outcome σ :=
  if bigIntSetUint64 event.Message.DestChainId ≠ i.srcChainId then
    ⟨none, [], w⟩
  else if event.Raw.Removed then
    ⟨none, [], w⟩
  else if waitForConfirmations then
    let confCtx := Context.withTimeout ctx env.defaultCtxTimeout
    let req : WaitRequest :=
      ⟨confCtx, i.srcEthClient, uint64OfInt env.defaultConfirmations, event.Raw.TxHash⟩
    match env.WaitConfirmations req w with
    | (some err, w1) => ⟨some err, [Step.WaitConfirmations req (some err)], w1⟩
    | (none, w1) =>
      afterConfirmations env i ctx chainID event [Step.WaitConfirmations req none] w1
  else
    afterConfirmations env i ctx chainID event [] w

/-! ## Observations on a run -/

/-- Whether a logged call came back with an error. -/
def Step.failed : Step → Bool
  | Step.WaitConfirmations _ r => r.isSome
  | Step.jsonMarshalEvent _ r => r.isLeft
  | Step.saveEventToDB _ r => r.isLeft
  | Step.jsonMarshalBody _ r => r.isLeft
  | Step.Publish _ r => r.isSome

/-- Whether a logged call is a `relayer.WaitConfirmations` call. -/
def Step.isWait : Step → Bool
  | Step.WaitConfirmations _ _ => true
  | _ => false

/-- Whether a logged call is an `i.saveEventToDB` call (the only store operation). -/
def Step.isSave : Step → Bool
  | Step.saveEventToDB _ _ => true
  | _ => false

/-- Whether a logged call is an `i.queue.Publish` call. -/
def Step.isPublish : Step → Bool
  | Step.Publish _ _ => true
  | _ => false

/-- Number of `relayer.WaitConfirmations` calls in a log. -/
def waitCalls (steps : List Step) : Nat := steps.countP Step.isWait

/-- Number of `i.saveEventToDB` calls in a log. -/
def saveCalls (steps : List Step) : Nat := steps.countP Step.isSave

/-- Number of `i.queue.Publish` calls in a log. -/
def publishCalls (steps : List Step) : Nat := steps.countP Step.isPublish

/-- The error the handler returns when the given logged call is the one that
failed (source lines 56, 69, 84, 94, 100); `none` for a call that succeeded. -/
def Step.reported : Step → Error
  | Step.WaitConfirmations _ r => r
  | Step.jsonMarshalEvent _ (Sum.inl e) => errorsWrap (some e) "json.Marshal(event)"
  | Step.saveEventToDB _ (Sum.inl e) => errorsWrap (some e) "i.saveEventToDB"
  | Step.jsonMarshalBody _ (Sum.inl e) => errorsWrap (some e) "json.Marshal"
  | Step.Publish _ r => errorsWrap r "i.queue.Publish"
  | _ => none

/-- A log in which no call failed, or in which only the last call failed. -/
def FailsOnlyLast (steps : List Step) (err : Error) : Prop :=
  ((∀ s ∈ steps, s.failed = false) ∧ err = none) ∨
  (∃ pre s, steps = pre ++ [s] ∧ (∀ t ∈ pre, t.failed = false) ∧ s.failed = true ∧
    err = s.reported ∧ err ≠ none ∧ publishCalls pre = 0)

/-- The `WaitConfirmations` request the handler builds (source lines 46-55). -/
def waitRequest {σ : Type} (env : Env σ) (i : Indexer) (ctx : Context)
    (event : BridgeMessageProcessed) : WaitRequest :=
  ⟨Context.withTimeout ctx env.defaultCtxTimeout, i.srcEthClient,
    uint64OfInt env.defaultConfirmations, event.Raw.TxHash⟩

/-- The `saveEventToDB` request the handler builds from the serialized event
(source lines 72-82). -/
def saveRequest {σ : Type} (env : Env σ) (ctx : Context) (chainID : Int)
    (event : BridgeMessageProcessed) (marshaled : Bytes) : SaveRequest :=
  ⟨ctx, marshaled, "0x", chainID, 1, env.addressHex event.Message.SrcOwner,
    event.Message.Data, event.Message.Value, event.Raw.BlockNumber⟩

/-- The `queue.Publish` request the handler builds from the serialized body
(source line 99). -/
def publishRequest {σ : Type} (env : Env σ) (i : Indexer) (ctx : Context)
    (marshalledMsg : Bytes) : PublishRequest :=
  ⟨ctx, env.queueName i, marshalledMsg, none⟩

/-- Every collaborator of an environment succeeds on every input. -/
def Env.AllSucceed {σ : Type} (env : Env σ) : Prop :=
  (∀ req w, (env.WaitConfirmations req w).1 = none) ∧
  (∀ e, (env.jsonMarshalEvent e).isRight = true) ∧
  (∀ req w, (env.saveEventToDB req w).1.isRight = true) ∧
  (∀ b, (env.jsonMarshalBody b).isRight = true) ∧
  (∀ req w, (env.Publish req w).1 = none)

/-! ## A concrete environment -/

/-- A toy world: the rows written to the store and the messages on the queue. -/
structure World where
  store : List SaveRequest
  queue : List PublishRequest
  deriving DecidableEq, Repr

/-- A toy JSON encoder for events: the fields in order. -/
def encodeEvent (e : BridgeMessageProcessed) : Bytes :=
  [e.Message.DestChainId, e.Message.SrcOwner, e.Raw.TxHash, e.Raw.BlockNumber]

/-- An environment with scripted collaborators: the waiter returns `waitResult`,
the store returns `saveResult` and records the row when it succeeds, the queue
returns `publishResult` and records the message when it succeeds, and the JSON
encoder fails with the given error, on events and on bodies alike, when one is
supplied. -/
def scriptedEnv (waitResult : ErrResult) (encodeErr : Error)
    (saveResult : ValResult Int) (publishResult : ErrResult) :
    Env World where
  defaultCtxTimeout := 180
  defaultConfirmations := 5
  addressHex := fun a => "0x" ++ String.mk (Nat.toDigits 16 a)
  queueName := fun i => toString i.srcChainId ++ "-queue"
  WaitConfirmations := fun _ w => (waitResult, w)
  jsonMarshalEvent := fun e =>
    match encodeErr with
    | some err => Sum.inl err
    | none => Sum.inr (encodeEvent e)
  saveEventToDB := fun req w =>
    match saveResult with
    | Sum.inl err => (Sum.inl err, w)
    | Sum.inr id => (Sum.inr id, { w with store := w.store ++ [req] })
  jsonMarshalBody := fun b =>
    match encodeErr with
    | some err => Sum.inl err
    | none => Sum.inr (b.ID.toNat :: encodeEvent b.Event)
  Publish := fun req w =>
    match publishResult with
    | some err => (some err, w)
    | none => (none, { w with queue := w.queue ++ [req] })
  jsonMarshalBody_of_event := by
    intro id event m h
    cases encodeErr with
    | none => exact ⟨_, rfl⟩
    | some err => simp at h

/-- An environment in which every collaborator succeeds; the store hands out
record identifier `1`. -/
def happyEnv : Env World := scriptedEnv none none (Sum.inr 1) none

/-- An event destined for chain `1`, not removed. -/
def sampleEvent : BridgeMessageProcessed :=
  ⟨⟨1, 0xabc, [1, 2, 3], 7⟩, ⟨0x99, 42, false⟩⟩

/-- A live-watch indexer for chain `1`. -/
def liveIndexer : Indexer := ⟨1, WatchMode.LiveWatch, 0⟩

/-- A past-block-crawl indexer for chain `1`. -/
def crawlIndexer : Indexer := ⟨1, WatchMode.CrawlPastBlocks, 0⟩

/-- An indexer whose chain identifier does not fit in 64 bits: `2 ^ 64 + 5`. -/
def wideIndexer : Indexer := ⟨18446744073709551621, WatchMode.LiveWatch, 0⟩

/-- An event destined for chain `5`. -/
def chainFiveEvent : BridgeMessageProcessed :=
  ⟨⟨5, 0xabc, [1, 2, 3], 7⟩, ⟨0x99, 42, false⟩⟩

/-- An event destined for chain `1` whose log was removed by a reorg. -/
def removedEvent : BridgeMessageProcessed :=
  ⟨⟨1, 0xabc, [1, 2, 3], 7⟩, ⟨0x99, 42, true⟩⟩

/-- An environment whose confirmation waiter times out. -/
def timeoutEnv : Env World :=
  scriptedEnv (some (GoError.base "context deadline exceeded")) none (Sum.inr 1) none

/-- An environment in which the store succeeds with record `1` and the queue
then rejects the message. -/
def publishFailEnv : Env World :=
  scriptedEnv none none (Sum.inr 1) (some (GoError.base "broker unavailable"))

/-- An environment whose store rejects the write. -/
def saveFailEnv : Env World :=
  scriptedEnv none none (Sum.inl (GoError.base "db unavailable")) none

/-- The empty toy world. -/
def emptyWorld : World := ⟨[], []⟩

end Relayer

namespace Relayer

/-! ## Shape of a run -/

section Shape

variable {σ : Type} (env : Env σ) (i : Indexer) (ctx : Context) (chainID : Int)
  (event : BridgeMessageProcessed)

/-- A run that fails the chain check makes no call and changes nothing. -/
theorem handle_of_wrong_chain (wait : Bool) (w : σ)
    (h : (event.Message.DestChainId : Int) ≠ i.srcChainId) :
    handleMessageProcessedEvent env i ctx chainID event wait w = ⟨none, [], w⟩ := by
  unfold handleMessageProcessedEvent bigIntSetUint64
  simp [h]

/-- A run on a removed event makes no call and changes nothing. -/
theorem handle_of_removed (wait : Bool) (w : σ) (h : event.Raw.Removed = true) :
    handleMessageProcessedEvent env i ctx chainID event wait w = ⟨none, [], w⟩ := by
  unfold handleMessageProcessedEvent
  simp [h]

/-- A run that passes both checks and needs no confirmation continues with the
mode check on an empty log. -/
theorem handle_of_no_wait (w : σ)
    (hc : (event.Message.DestChainId : Int) = i.srcChainId)
    (hr : event.Raw.Removed = false) :
    handleMessageProcessedEvent env i ctx chainID event false w
      = afterConfirmations env i ctx chainID event [] w := by
  unfold handleMessageProcessedEvent bigIntSetUint64
  simp [hc, hr]

/-- A run that passes both checks and whose confirmation wait fails returns the
waiter's error unchanged, having made that single call. -/
theorem handle_of_wait_failed (w : σ) (e : GoError)
    (hc : (event.Message.DestChainId : Int) = i.srcChainId)
    (hr : event.Raw.Removed = false)
    (hw : (env.WaitConfirmations (waitRequest env i ctx event) w).1 = some e) :
    handleMessageProcessedEvent env i ctx chainID event true w
      = ⟨some e, [Step.WaitConfirmations (waitRequest env i ctx event) (some e)],
          (env.WaitConfirmations (waitRequest env i ctx event) w).2⟩ := by
  unfold handleMessageProcessedEvent bigIntSetUint64
  unfold waitRequest at hw
  simp only [waitRequest, Int.ofNat_eq_coe, hc, ne_eq, not_true_eq_false, ↓reduceIte, hr,
    Bool.false_eq_true]
  split
  · rename_i err w1 heq
    rw [heq] at hw
    simp at hw
    simp [hw, heq]
  · rename_i w1 heq
    rw [heq] at hw
    simp at hw

/-- A run that passes both checks and whose confirmation wait succeeds continues
with the mode check, the wait being the only call so far. -/
theorem handle_of_wait_ok (w : σ)
    (hc : (event.Message.DestChainId : Int) = i.srcChainId)
    (hr : event.Raw.Removed = false)
    (hw : (env.WaitConfirmations (waitRequest env i ctx event) w).1 = none) :
    handleMessageProcessedEvent env i ctx chainID event true w
      = afterConfirmations env i ctx chainID event
          [Step.WaitConfirmations (waitRequest env i ctx event) none]
          (env.WaitConfirmations (waitRequest env i ctx event) w).2 := by
  unfold handleMessageProcessedEvent bigIntSetUint64
  unfold waitRequest at hw
  simp only [waitRequest, Int.ofNat_eq_coe, hc, ne_eq, not_true_eq_false, ↓reduceIte, hr,
    Bool.false_eq_true]
  split
  · rename_i err w1 heq
    rw [heq] at hw
    simp at hw
  · rename_i w1 heq
    simp [heq]

/-- The five ways the persist-and-publish part can end, each with the exact
error, log and world it yields. -/
theorem persistAndPublish_cases (done : List Step) (w : σ) :
    (∃ e, env.jsonMarshalEvent event = Sum.inl e ∧
      persistAndPublish env i ctx chainID event done w
        = ⟨some (GoError.withMessage e "json.Marshal(event)"),
            done ++ [Step.jsonMarshalEvent event (Sum.inl e)], w⟩) ∨
    (∃ m e, env.jsonMarshalEvent event = Sum.inr m ∧
      (env.saveEventToDB (saveRequest env ctx chainID event m) w).1 = Sum.inl e ∧
      persistAndPublish env i ctx chainID event done w
        = ⟨some (GoError.withMessage e "i.saveEventToDB"),
            done ++ [Step.jsonMarshalEvent event (Sum.inr m),
              Step.saveEventToDB (saveRequest env ctx chainID event m) (Sum.inl e)],
            (env.saveEventToDB (saveRequest env ctx chainID event m) w).2⟩) ∨
    (∃ m id e, env.jsonMarshalEvent event = Sum.inr m ∧
      (env.saveEventToDB (saveRequest env ctx chainID event m) w).1 = Sum.inr id ∧
      env.jsonMarshalBody ⟨id, event⟩ = Sum.inl e ∧
      persistAndPublish env i ctx chainID event done w
        = ⟨some (GoError.withMessage e "json.Marshal"),
            done ++ [Step.jsonMarshalEvent event (Sum.inr m),
              Step.saveEventToDB (saveRequest env ctx chainID event m) (Sum.inr id),
              Step.jsonMarshalBody ⟨id, event⟩ (Sum.inl e)],
            (env.saveEventToDB (saveRequest env ctx chainID event m) w).2⟩) ∨
    (∃ m id b e, env.jsonMarshalEvent event = Sum.inr m ∧
      (env.saveEventToDB (saveRequest env ctx chainID event m) w).1 = Sum.inr id ∧
      env.jsonMarshalBody ⟨id, event⟩ = Sum.inr b ∧
      (env.Publish (publishRequest env i ctx b)
        (env.saveEventToDB (saveRequest env ctx chainID event m) w).2).1 = some e ∧
      persistAndPublish env i ctx chainID event done w
        = ⟨some (GoError.withMessage e "i.queue.Publish"),
            done ++ [Step.jsonMarshalEvent event (Sum.inr m),
              Step.saveEventToDB (saveRequest env ctx chainID event m) (Sum.inr id),
              Step.jsonMarshalBody ⟨id, event⟩ (Sum.inr b),
              Step.Publish (publishRequest env i ctx b) (some e)],
            (env.Publish (publishRequest env i ctx b)
              (env.saveEventToDB (saveRequest env ctx chainID event m) w).2).2⟩) ∨
    (∃ m id b, env.jsonMarshalEvent event = Sum.inr m ∧
      (env.saveEventToDB (saveRequest env ctx chainID event m) w).1 = Sum.inr id ∧
      env.jsonMarshalBody ⟨id, event⟩ = Sum.inr b ∧
      (env.Publish (publishRequest env i ctx b)
        (env.saveEventToDB (saveRequest env ctx chainID event m) w).2).1 = none ∧
      persistAndPublish env i ctx chainID event done w
        = ⟨none,
            done ++ [Step.jsonMarshalEvent event (Sum.inr m),
              Step.saveEventToDB (saveRequest env ctx chainID event m) (Sum.inr id),
              Step.jsonMarshalBody ⟨id, event⟩ (Sum.inr b),
              Step.Publish (publishRequest env i ctx b) none],
            (env.Publish (publishRequest env i ctx b)
              (env.saveEventToDB (saveRequest env ctx chainID event m) w).2).2⟩) := by
  cases hm : env.jsonMarshalEvent event with
  | inl e =>
    left
    exact ⟨e, rfl, by simp [persistAndPublish, hm, errorsWrap]⟩
  | inr m =>
    right
    cases hs : env.saveEventToDB (saveRequest env ctx chainID event m) w with
    | mk sr w1 =>
      have hs2 := hs
      simp only [saveRequest] at hs2
      cases sr with
      | inl e =>
        left
        refine ⟨m, e, rfl, by simp [hs], ?_⟩
        simp [persistAndPublish, saveRequest, hm, hs2, errorsWrap]
      | inr id =>
        right
        cases hb : env.jsonMarshalBody ⟨id, event⟩ with
        | inl e =>
          left
          refine ⟨m, id, e, rfl, by simp [hs], hb, ?_⟩
          simp [persistAndPublish, saveRequest, hm, hs2, hb, errorsWrap]
        | inr b =>
          right
          cases hp : env.Publish (publishRequest env i ctx b) w1 with
          | mk pr w2 =>
            have hp2 := hp
            simp only [publishRequest] at hp2
            cases pr with
            | some e =>
              left
              refine ⟨m, id, b, e, rfl, by simp [hs], hb, by simp [hs, hp], ?_⟩
              simp [persistAndPublish, saveRequest, publishRequest, hm, hs2, hb, hp2,
                errorsWrap]
            | none =>
              right
              refine ⟨m, id, b, rfl, by simp [hs], hb, by simp [hs, hp], ?_⟩
              simp [persistAndPublish, saveRequest, publishRequest, hm, hs2, hb, hp2,
                errorsWrap]

/-- In past-block-crawl mode the part after the confirmation wait returns
success at once. -/
theorem afterConfirmations_crawl (done : List Step) (w : σ)
    (h : i.watchMode = WatchMode.CrawlPastBlocks) :
    afterConfirmations env i ctx chainID event done w = ⟨none, done, w⟩ := by
  simp [afterConfirmations, h]

/-- Outside past-block-crawl mode the part after the confirmation wait is
persist-and-publish. -/
theorem afterConfirmations_live (done : List Step) (w : σ)
    (h : i.watchMode ≠ WatchMode.CrawlPastBlocks) :
    afterConfirmations env i ctx chainID event done w
      = persistAndPublish env i ctx chainID event done w := by
  simp [afterConfirmations, h]

/-- The three ways a run can go up to the mode check: skipped with no call,
stopped by a failed confirmation wait, or continued after the (optional,
successful) confirmation wait. -/
theorem handle_cases (wait : Bool) (w : σ) :
    (((event.Message.DestChainId : Int) ≠ i.srcChainId ∨ event.Raw.Removed = true) ∧
      handleMessageProcessedEvent env i ctx chainID event wait w = ⟨none, [], w⟩) ∨
    ((event.Message.DestChainId : Int) = i.srcChainId ∧ event.Raw.Removed = false ∧
      wait = true ∧
      ∃ e, (env.WaitConfirmations (waitRequest env i ctx event) w).1 = some e ∧
        handleMessageProcessedEvent env i ctx chainID event wait w
          = ⟨some e, [Step.WaitConfirmations (waitRequest env i ctx event) (some e)],
              (env.WaitConfirmations (waitRequest env i ctx event) w).2⟩) ∨
    ((event.Message.DestChainId : Int) = i.srcChainId ∧ event.Raw.Removed = false ∧
      ∃ done w1,
        ((wait = false ∧ done = [] ∧ w1 = w) ∨
          (wait = true ∧
            (env.WaitConfirmations (waitRequest env i ctx event) w).1 = none ∧
            done = [Step.WaitConfirmations (waitRequest env i ctx event) none] ∧
            w1 = (env.WaitConfirmations (waitRequest env i ctx event) w).2)) ∧
        handleMessageProcessedEvent env i ctx chainID event wait w
          = afterConfirmations env i ctx chainID event done w1) := by
  by_cases hc : (event.Message.DestChainId : Int) = i.srcChainId
  · cases hr : event.Raw.Removed with
    | true =>
      left
      exact ⟨Or.inr rfl, handle_of_removed env i ctx chainID event wait w hr⟩
    | false =>
      right
      cases wait with
      | false =>
        right
        exact ⟨hc, rfl, [], w, Or.inl ⟨rfl, rfl, rfl⟩,
          handle_of_no_wait env i ctx chainID event w hc hr⟩
      | true =>
        cases hw : (env.WaitConfirmations (waitRequest env i ctx event) w).1 with
        | some e =>
          left
          exact ⟨hc, rfl, rfl, e, rfl,
            handle_of_wait_failed env i ctx chainID event w e hc hr hw⟩
        | none =>
          right
          exact ⟨hc, rfl, _, _, Or.inr ⟨rfl, rfl, rfl, rfl⟩,
            handle_of_wait_ok env i ctx chainID event w hc hr hw⟩
  · left
    exact ⟨Or.inl hc, handle_of_wrong_chain env i ctx chainID event wait w hc⟩

/-- When every collaborator succeeds, persist-and-publish returns `nil` after
exactly one `saveEventToDB` call and one `queue.Publish` call beyond what was
already logged. -/
theorem persistAndPublish_all_succeed (done : List Step) (w : σ) (hall : env.AllSucceed) :
    (persistAndPublish env i ctx chainID event done w).err = none ∧
    saveCalls (persistAndPublish env i ctx chainID event done w).steps = saveCalls done + 1 ∧
    publishCalls (persistAndPublish env i ctx chainID event done w).steps
      = publishCalls done + 1 := by
  obtain ⟨_, hme, hsv, hmb, hpb⟩ := hall
  rcases persistAndPublish_cases env i ctx chainID event done w with
    ⟨e, h1, _⟩ | ⟨m, e, _, h2, _⟩ | ⟨m, id, e, _, _, h3, _⟩ |
    ⟨m, id, b, e, _, _, _, h4, _⟩ | ⟨m, id, b, _, _, _, _, h⟩
  · have := hme event
    simp [h1] at this
  · have := hsv (saveRequest env ctx chainID event m) w
    simp [h2] at this
  · have := hmb ⟨id, event⟩
    simp [h3] at this
  · have := hpb (publishRequest env i ctx b)
      (env.saveEventToDB (saveRequest env ctx chainID event m) w).2
    simp [h4] at this
  · rw [h]
    simp [saveCalls, publishCalls, List.countP_append, List.countP_cons, Step.isSave,
      Step.isPublish]

/-- With every collaborator succeeding and the indexer not in past-block-crawl
mode, an event that passes the chain and removed checks is persisted once and
published once, and the handler returns `nil`. -/
theorem handle_live_all_succeed (wait : Bool) (w : σ)
    (hc : (event.Message.DestChainId : Int) = i.srcChainId)
    (hr : event.Raw.Removed = false)
    (hm : i.watchMode ≠ WatchMode.CrawlPastBlocks) (hall : env.AllSucceed) :
    (handleMessageProcessedEvent env i ctx chainID event wait w).err = none ∧
    saveCalls (handleMessageProcessedEvent env i ctx chainID event wait w).steps = 1 ∧
    publishCalls (handleMessageProcessedEvent env i ctx chainID event wait w).steps = 1 := by
  rcases handle_cases env i ctx chainID event wait w with
    ⟨hskip, _⟩ | ⟨_, _, _, e, hw, _⟩ | ⟨_, _, done, w1, hdone, hrun⟩
  · rcases hskip with hskip | hskip
    · exact absurd hc hskip
    · rw [hr] at hskip
      exact absurd hskip (by decide)
  · have := hall.1 (waitRequest env i ctx event) w
    rw [hw] at this
    exact absurd this (by simp)
  · rw [hrun, afterConfirmations_live env i ctx chainID event done w1 hm]
    have h := persistAndPublish_all_succeed env i ctx chainID event done w1 hall
    have hd : saveCalls done = 0 ∧ publishCalls done = 0 := by
      rcases hdone with ⟨_, hd, _⟩ | ⟨_, _, hd, _⟩ <;>
        simp [hd, saveCalls, publishCalls, Step.isSave, Step.isPublish]
    rw [hd.1, hd.2] at h
    simpa using h

/-- Persist-and-publish started on a log without failures and without publish
calls stops at its first failing call and reports it; with no failing call it
returns `nil`. -/
theorem persistAndPublish_failsOnlyLast (done : List Step) (w : σ)
    (hd : ∀ t ∈ done, t.failed = false) (hp : publishCalls done = 0) :
    FailsOnlyLast (persistAndPublish env i ctx chainID event done w).steps
      (persistAndPublish env i ctx chainID event done w).err := by
  simp only [publishCalls] at hp
  rcases persistAndPublish_cases env i ctx chainID event done w with
    ⟨e, _, h⟩ | ⟨m, e, _, _, h⟩ | ⟨m, id, e, _, _, _, h⟩ |
    ⟨m, id, b, e, _, _, _, _, h⟩ | ⟨m, id, b, _, _, _, _, h⟩
  · rw [h]
    right
    refine ⟨done, _, rfl, hd, ?_⟩
    simp [Step.failed, Step.reported, errorsWrap, publishCalls, hp]
  · rw [h]
    right
    refine ⟨done ++ [Step.jsonMarshalEvent event (Sum.inr m)],
      Step.saveEventToDB (saveRequest env ctx chainID event m) (Sum.inl e), by simp, ?_, ?_⟩
    · intro t ht
      rcases List.mem_append.1 ht with ht | ht
      · exact hd t ht
      · simp at ht
        simp [ht, Step.failed]
    · simp [Step.failed, Step.reported, errorsWrap, publishCalls, List.countP_append, hp,
        Step.isPublish]
  · rw [h]
    right
    refine ⟨done ++ [Step.jsonMarshalEvent event (Sum.inr m),
      Step.saveEventToDB (saveRequest env ctx chainID event m) (Sum.inr id)],
      Step.jsonMarshalBody ⟨id, event⟩ (Sum.inl e), by simp, ?_, ?_⟩
    · intro t ht
      rcases List.mem_append.1 ht with ht | ht
      · exact hd t ht
      · simp at ht
        rcases ht with ht | ht <;> simp [ht, Step.failed]
    · simp [Step.failed, Step.reported, errorsWrap, publishCalls, List.countP_append, hp,
        Step.isPublish]
  · rw [h]
    right
    refine ⟨done ++ [Step.jsonMarshalEvent event (Sum.inr m),
      Step.saveEventToDB (saveRequest env ctx chainID event m) (Sum.inr id),
      Step.jsonMarshalBody ⟨id, event⟩ (Sum.inr b)],
      Step.Publish (publishRequest env i ctx b) (some e), by simp, ?_, ?_⟩
    · intro t ht
      rcases List.mem_append.1 ht with ht | ht
      · exact hd t ht
      · simp at ht
        rcases ht with ht | ht | ht <;> simp [ht, Step.failed]
    · simp [Step.failed, Step.reported, errorsWrap, publishCalls, List.countP_append, hp,
        Step.isPublish]
  · rw [h]
    left
    refine ⟨?_, rfl⟩
    intro t ht
    rcases List.mem_append.1 ht with ht | ht
    · exact hd t ht
    · simp at ht
      rcases ht with ht | ht | ht | ht <;> simp [ht, Step.failed]

/-- Every run of the handler stops at its first failing call and reports it;
a run without a failing call returns `nil`. -/
theorem handle_failsOnlyLast (wait : Bool) (w : σ) :
    FailsOnlyLast (handleMessageProcessedEvent env i ctx chainID event wait w).steps
      (handleMessageProcessedEvent env i ctx chainID event wait w).err := by
  rcases handle_cases env i ctx chainID event wait w with
    ⟨_, hrun⟩ | ⟨_, _, _, e, _, hrun⟩ | ⟨_, _, done, w1, hdone, hrun⟩
  · rw [hrun]
    left
    simp
  · rw [hrun]
    right
    exact ⟨[], _, rfl, by simp, by simp [Step.failed, Step.reported, publishCalls]⟩
  · rw [hrun]
    have hd : (∀ t ∈ done, t.failed = false) ∧ publishCalls done = 0 := by
      rcases hdone with ⟨_, hd, _⟩ | ⟨_, _, hd, _⟩ <;>
        simp [hd, publishCalls, Step.isPublish, Step.failed]
    by_cases hm : i.watchMode = WatchMode.CrawlPastBlocks
    · rw [afterConfirmations_crawl env i ctx chainID event done w1 hm]
      left
      exact ⟨hd.1, rfl⟩
    · rw [afterConfirmations_live env i ctx chainID event done w1 hm]
      exact persistAndPublish_failsOnlyLast env i ctx chainID event done w1 hd.1 hd.2

/-- A run whose log holds a `queue.Publish` call went through the whole
pipeline: the event serialized, the store returned an identifier, the body
serialized, and the publish call is the last call; the handler returns the
publish result, wrapped when it is an error. -/
theorem handle_of_publish_logged (wait : Bool) (w : σ) (preq : PublishRequest)
    (res : ErrResult)
    (hpub : Step.Publish preq res
      ∈ (handleMessageProcessedEvent env i ctx chainID event wait w).steps) :
    ∃ done m id b w0,
      env.jsonMarshalEvent event = Sum.inr m ∧
      (env.saveEventToDB (saveRequest env ctx chainID event m) w0).1 = Sum.inr id ∧
      env.jsonMarshalBody ⟨id, event⟩ = Sum.inr b ∧
      preq = publishRequest env i ctx b ∧
      res = (env.Publish preq (env.saveEventToDB (saveRequest env ctx chainID event m) w0).2).1 ∧
      (handleMessageProcessedEvent env i ctx chainID event wait w).steps
        = done ++ [Step.jsonMarshalEvent event (Sum.inr m),
            Step.saveEventToDB (saveRequest env ctx chainID event m) (Sum.inr id),
            Step.jsonMarshalBody ⟨id, event⟩ (Sum.inr b),
            Step.Publish preq res] ∧
      saveCalls done = 0 ∧ publishCalls done = 0 ∧
      (handleMessageProcessedEvent env i ctx chainID event wait w).err
        = errorsWrap res "i.queue.Publish" ∧
      (handleMessageProcessedEvent env i ctx chainID event wait w).world
        = (env.Publish preq (env.saveEventToDB (saveRequest env ctx chainID event m) w0).2).2 := by
  rcases handle_cases env i ctx chainID event wait w with
    ⟨_, hrun⟩ | ⟨_, _, _, e, _, hrun⟩ | ⟨_, _, done, w1, hdone, hrun⟩
  · rw [hrun] at hpub
    simp at hpub
  · rw [hrun] at hpub
    simp at hpub
  · have hd : saveCalls done = 0 ∧ publishCalls done = 0 ∧ Step.Publish preq res ∉ done := by
      rcases hdone with ⟨_, hd, _⟩ | ⟨_, _, hd, _⟩ <;>
        simp [hd, saveCalls, publishCalls, Step.isSave, Step.isPublish]
    obtain ⟨hd1, hd2, hd3⟩ := hd
    rw [hrun] at hpub ⊢
    by_cases hm : i.watchMode = WatchMode.CrawlPastBlocks
    · rw [afterConfirmations_crawl env i ctx chainID event done w1 hm] at hpub
      exact absurd hpub hd3
    · rw [afterConfirmations_live env i ctx chainID event done w1 hm] at hpub ⊢
      rcases persistAndPublish_cases env i ctx chainID event done w1 with
        ⟨e, _, h⟩ | ⟨m, e, _, _, h⟩ | ⟨m, id, e, _, _, _, h⟩ |
        ⟨m, id, b, e, h1, h2, h3, h4, h⟩ | ⟨m, id, b, h1, h2, h3, h4, h⟩
      · rw [h] at hpub
        simp [hd3] at hpub
      · rw [h] at hpub
        simp [hd3] at hpub
      · rw [h] at hpub
        simp [hd3] at hpub
      · rw [h] at hpub
        simp [hd3] at hpub
        obtain ⟨hreq, hres⟩ := hpub
        subst hreq hres
        rw [h]
        exact ⟨done, m, id, b, w1, h1, h2, h3, rfl, h4.symm, rfl, hd1, hd2, by simp [errorsWrap],
          rfl⟩
      · rw [h] at hpub
        simp [hd3] at hpub
        obtain ⟨hreq, hres⟩ := hpub
        subst hreq hres
        rw [h]
        exact ⟨done, m, id, b, w1, h1, h2, h3, rfl, h4.symm, rfl, hd1, hd2, by simp [errorsWrap],
          rfl⟩

/-- A run whose log holds a `saveEventToDB` call serialized the event first and
built the write request from that serialization and the event's own fields. -/
theorem handle_of_save_logged (wait : Bool) (w : σ) (req : SaveRequest)
    (res : ValResult Int)
    (hsave : Step.saveEventToDB req res
      ∈ (handleMessageProcessedEvent env i ctx chainID event wait w).steps) :
    ∃ m, env.jsonMarshalEvent event = Sum.inr m ∧
      req = saveRequest env ctx chainID event m := by
  rcases handle_cases env i ctx chainID event wait w with
    ⟨_, hrun⟩ | ⟨_, _, _, e, _, hrun⟩ | ⟨_, _, done, w1, hdone, hrun⟩
  · rw [hrun] at hsave
    simp at hsave
  · rw [hrun] at hsave
    simp at hsave
  · have hd3 : Step.saveEventToDB req res ∉ done := by
      rcases hdone with ⟨_, hd, _⟩ | ⟨_, _, hd, _⟩ <;> simp [hd]
    rw [hrun] at hsave
    by_cases hm : i.watchMode = WatchMode.CrawlPastBlocks
    · rw [afterConfirmations_crawl env i ctx chainID event done w1 hm] at hsave
      exact absurd hsave hd3
    · rw [afterConfirmations_live env i ctx chainID event done w1 hm] at hsave
      rcases persistAndPublish_cases env i ctx chainID event done w1 with
        ⟨e, _, h⟩ | ⟨m, e, h1, _, h⟩ | ⟨m, id, e, h1, _, _, h⟩ |
        ⟨m, id, b, e, h1, _, _, _, h⟩ | ⟨m, id, b, h1, _, _, _, h⟩
      · rw [h] at hsave
        simp [hd3] at hsave
      all_goals
        rw [h] at hsave
        simp [hd3] at hsave
        exact ⟨m, h1, hsave.1⟩

/-- Every collaborator of `happyEnv` succeeds. -/
theorem happyEnv_allSucceed : happyEnv.AllSucceed := by
  refine ⟨?_, ?_, ?_, ?_, ?_⟩ <;> intros <;> rfl

end Shape

/-! ## Validation outcomes -/

/-- C1: an event whose destination chain identifier differs from the indexer's
source chain identifier (compared as unbounded integers) is skipped: the handler
returns `nil` and calls neither `WaitConfirmations`, `saveEventToDB` nor
`queue.Publish` (it makes no call at all and leaves the world untouched),
whatever the removed flag, the confirmation flag, the watch mode and `chainID`. -/
theorem wrong_chain_is_skipped {σ : Type} (env : Env σ) (i : Indexer) (ctx : Context)
    (chainID : Int) (event : BridgeMessageProcessed) (waitForConfirmations : Bool) (w : σ)
    (h : (event.Message.DestChainId : Int) ≠ i.srcChainId) :
    (handleMessageProcessedEvent env i ctx chainID event waitForConfirmations w).err = none ∧
    waitCalls (handleMessageProcessedEvent env i ctx chainID event waitForConfirmations w).steps = 0 ∧
    saveCalls (handleMessageProcessedEvent env i ctx chainID event waitForConfirmations w).steps = 0 ∧
    publishCalls (handleMessageProcessedEvent env i ctx chainID event waitForConfirmations w).steps = 0 ∧
    (handleMessageProcessedEvent env i ctx chainID event waitForConfirmations w).steps = [] ∧
    (handleMessageProcessedEvent env i ctx chainID event waitForConfirmations w).world = w := by
  rw [handle_of_wrong_chain env i ctx chainID event waitForConfirmations w h]
  simp [waitCalls, saveCalls, publishCalls]

/-- Instance of C1: destination chain `5` against an indexer for chain
`2 ^ 64 + 5`, which agrees with `5` in its low 64 bits, is still a mismatch. -/
theorem wrong_chain_is_skipped_witness :
    (chainFiveEvent.Message.DestChainId : Int) ≠ wideIndexer.srcChainId ∧
    wideIndexer.srcChainId % 2 ^ 64 = (chainFiveEvent.Message.DestChainId : Int) ∧
    (handleMessageProcessedEvent happyEnv wideIndexer Context.background 1
      chainFiveEvent true emptyWorld).err = none ∧
    waitCalls (handleMessageProcessedEvent happyEnv wideIndexer Context.background 1
      chainFiveEvent true emptyWorld).steps = 0 ∧
    saveCalls (handleMessageProcessedEvent happyEnv wideIndexer Context.background 1
      chainFiveEvent true emptyWorld).steps = 0 ∧
    publishCalls (handleMessageProcessedEvent happyEnv wideIndexer Context.background 1
      chainFiveEvent true emptyWorld).steps = 0 ∧
    (handleMessageProcessedEvent happyEnv wideIndexer Context.background 1
      chainFiveEvent true emptyWorld).steps = [] ∧
    (handleMessageProcessedEvent happyEnv wideIndexer Context.background 1
      chainFiveEvent true emptyWorld).world = emptyWorld :=
  ⟨by decide, by decide,
    wrong_chain_is_skipped happyEnv wideIndexer Context.background 1 chainFiveEvent true
      emptyWorld (by decide)⟩

/-- C2: an event whose log has `Removed = true` is skipped, whether or not its
destination chain matches: the handler returns `nil` and never calls
`saveEventToDB` or `queue.Publish` (it makes no call at all), for every
confirmation flag and watch mode. -/
theorem removed_is_skipped {σ : Type} (env : Env σ) (i : Indexer) (ctx : Context)
    (chainID : Int) (event : BridgeMessageProcessed) (waitForConfirmations : Bool) (w : σ)
    (h : event.Raw.Removed = true) :
    (handleMessageProcessedEvent env i ctx chainID event waitForConfirmations w).err = none ∧
    saveCalls (handleMessageProcessedEvent env i ctx chainID event waitForConfirmations w).steps = 0 ∧
    publishCalls (handleMessageProcessedEvent env i ctx chainID event waitForConfirmations w).steps = 0 ∧
    (handleMessageProcessedEvent env i ctx chainID event waitForConfirmations w).steps = [] := by
  rw [handle_of_removed env i ctx chainID event waitForConfirmations w h]
  simp [saveCalls, publishCalls]

/-- Instance of C2: a removed event on the matching chain, live watch, with
confirmations requested. -/
theorem removed_is_skipped_witness :
    removedEvent.Raw.Removed = true ∧
    (removedEvent.Message.DestChainId : Int) = liveIndexer.srcChainId ∧
    (handleMessageProcessedEvent happyEnv liveIndexer Context.background 1
      removedEvent true emptyWorld).err = none ∧
    saveCalls (handleMessageProcessedEvent happyEnv liveIndexer Context.background 1
      removedEvent true emptyWorld).steps = 0 ∧
    publishCalls (handleMessageProcessedEvent happyEnv liveIndexer Context.background 1
      removedEvent true emptyWorld).steps = 0 ∧
    (handleMessageProcessedEvent happyEnv liveIndexer Context.background 1
      removedEvent true emptyWorld).steps = [] :=
  ⟨by decide, by decide,
    removed_is_skipped happyEnv liveIndexer Context.background 1 removedEvent true
      emptyWorld (by decide)⟩

/-! ## Confirmation wait -/

/-- C4: in live-watch mode, for an event that passes the chain and removed
checks and is handled with `waitForConfirmations = true`, an error from
`relayer.WaitConfirmations` makes the handler return a non-nil error (that very
error) without calling `saveEventToDB` or `queue.Publish`. -/
theorem wait_failure_stops_before_persist {σ : Type} (env : Env σ) (i : Indexer)
    (ctx : Context) (chainID : Int) (event : BridgeMessageProcessed) (w : σ) (e : GoError)
    (hc : (event.Message.DestChainId : Int) = i.srcChainId)
    (hr : event.Raw.Removed = false)
    (_hm : i.watchMode = WatchMode.LiveWatch)
    (hw : (env.WaitConfirmations (waitRequest env i ctx event) w).1 = some e) :
    (handleMessageProcessedEvent env i ctx chainID event true w).err ≠ none ∧
    (handleMessageProcessedEvent env i ctx chainID event true w).err = some e ∧
    saveCalls (handleMessageProcessedEvent env i ctx chainID event true w).steps = 0 ∧
    publishCalls (handleMessageProcessedEvent env i ctx chainID event true w).steps = 0 := by
  rw [handle_of_wait_failed env i ctx chainID event w e hc hr hw]
  simp [saveCalls, publishCalls, Step.isSave, Step.isPublish]

/-- Instance of C4: the waiter times out on a live-watch event for chain `1`. -/
theorem wait_failure_stops_before_persist_witness :
    (sampleEvent.Message.DestChainId : Int) = liveIndexer.srcChainId ∧
    sampleEvent.Raw.Removed = false ∧
    liveIndexer.watchMode = WatchMode.LiveWatch ∧
    (handleMessageProcessedEvent timeoutEnv liveIndexer Context.background 1
      sampleEvent true emptyWorld).err ≠ none ∧
    (handleMessageProcessedEvent timeoutEnv liveIndexer Context.background 1
      sampleEvent true emptyWorld).err = some (GoError.base "context deadline exceeded") ∧
    saveCalls (handleMessageProcessedEvent timeoutEnv liveIndexer Context.background 1
      sampleEvent true emptyWorld).steps = 0 ∧
    publishCalls (handleMessageProcessedEvent timeoutEnv liveIndexer Context.background 1
      sampleEvent true emptyWorld).steps = 0 :=
  ⟨by decide, by decide, by decide,
    wait_failure_stops_before_persist timeoutEnv liveIndexer Context.background 1
      sampleEvent emptyWorld (GoError.base "context deadline exceeded")
      (by decide) (by decide) (by decide) (by decide)⟩

/-- C9, as stated, fails: in past-block-crawl mode, an event on the matching
chain that is not removed, handled with `waitForConfirmations = true`, does
reach `relayer.WaitConfirmations` (once), before the mode check. -/
theorem crawl_mode_still_waits :
    crawlIndexer.watchMode = WatchMode.CrawlPastBlocks ∧
    waitCalls (handleMessageProcessedEvent happyEnv crawlIndexer Context.background 1
      sampleEvent true emptyWorld).steps = 1 ∧
    (handleMessageProcessedEvent happyEnv crawlIndexer Context.background 1
      sampleEvent true emptyWorld).steps
      = [Step.WaitConfirmations ⟨Context.withTimeout Context.background 180, 0, 5, 0x99⟩ none] := by
  decide

/-- C9, amended: `relayer.WaitConfirmations` is called exactly once when the
event passes the chain check and the removed check and `waitForConfirmations`
is true, and not at all otherwise, in every watch mode; when it is called it is
the first call of the run, made with the handler's request.  The wait is gated
by the flag alone and comes before the mode check. -/
theorem wait_is_gated_by_flag_only {σ : Type} (env : Env σ) (i : Indexer) (ctx : Context)
    (chainID : Int) (event : BridgeMessageProcessed) (waitForConfirmations : Bool) (w : σ) :
    waitCalls (handleMessageProcessedEvent env i ctx chainID event waitForConfirmations w).steps
      = (if (event.Message.DestChainId : Int) = i.srcChainId ∧ event.Raw.Removed = false ∧
            waitForConfirmations = true then 1 else 0) ∧
    (((event.Message.DestChainId : Int) = i.srcChainId ∧ event.Raw.Removed = false ∧
        waitForConfirmations = true) →
      ∃ rest,
        (handleMessageProcessedEvent env i ctx chainID event waitForConfirmations w).steps
          = Step.WaitConfirmations (waitRequest env i ctx event)
              (env.WaitConfirmations (waitRequest env i ctx event) w).1 :: rest ∧
        waitCalls rest = 0) := by
  rcases handle_cases env i ctx chainID event waitForConfirmations w with
    ⟨hskip, hrun⟩ | ⟨hc, hr, hwait, e, hw, hrun⟩ | ⟨hc, hr, done, w1, hdone, hrun⟩
  · rw [hrun]
    rcases hskip with hskip | hskip
    · simp [waitCalls, hskip]
    · simp [waitCalls, hskip]
  · rw [hrun, hw]
    simp [waitCalls, Step.isWait, hc, hr, hwait]
  · rw [hrun]
    have key : ∀ (d : List Step) (w2 : σ), ∃ tail,
        (afterConfirmations env i ctx chainID event d w2).steps = d ++ tail ∧
        waitCalls tail = 0 := by
      intro d w2
      by_cases hm : i.watchMode = WatchMode.CrawlPastBlocks
      · rw [afterConfirmations_crawl env i ctx chainID event d w2 hm]
        exact ⟨[], by simp, by simp [waitCalls]⟩
      · rw [afterConfirmations_live env i ctx chainID event d w2 hm]
        rcases persistAndPublish_cases env i ctx chainID event d w2 with
          ⟨e, _, h⟩ | ⟨m, e, _, _, h⟩ | ⟨m, id, e, _, _, _, h⟩ |
          ⟨m, id, b, e, _, _, _, _, h⟩ | ⟨m, id, b, _, _, _, _, h⟩ <;>
        · rw [h]
          exact ⟨_, rfl, by simp [waitCalls, Step.isWait]⟩
    obtain ⟨tail, htail, hcount⟩ := key done w1
    rw [htail]
    rcases hdone with ⟨hwait, hd, _⟩ | ⟨hwait, hw, hd, _⟩
    · subst hd
      simp only [waitCalls] at hcount
      simp [waitCalls, hwait, hcount]
    · subst hd
      simp only [waitCalls] at hcount
      refine ⟨?_, fun _ => ⟨tail, by rw [hw]; rfl, hcount⟩⟩
      rw [waitCalls, List.countP_append, hcount]
      simp [Step.isWait, hc, hr, hwait]

/-- Instance of C9 (amended) in past-block-crawl mode: with the flag the waiter
is called once, without the flag it is not called. -/
theorem wait_is_gated_by_flag_only_witness :
    waitCalls (handleMessageProcessedEvent happyEnv crawlIndexer Context.background 1
      sampleEvent true emptyWorld).steps = 1 ∧
    waitCalls (handleMessageProcessedEvent happyEnv crawlIndexer Context.background 1
      sampleEvent false emptyWorld).steps = 0 :=
  ⟨(wait_is_gated_by_flag_only happyEnv crawlIndexer Context.background 1 sampleEvent true
      emptyWorld).1.trans (by decide),
   (wait_is_gated_by_flag_only happyEnv crawlIndexer Context.background 1 sampleEvent false
      emptyWorld).1.trans (by decide)⟩

/-! ## Past-block-crawl mode -/

/-- C3, as stated, fails: in past-block-crawl mode, an event that passes the
chain and removed checks, handled with `waitForConfirmations = true` while the
confirmation waiter fails, does not return success: the waiter's error comes
back. -/
theorem crawl_mode_wait_failure_is_returned :
    crawlIndexer.watchMode = WatchMode.CrawlPastBlocks ∧
    (sampleEvent.Message.DestChainId : Int) = crawlIndexer.srcChainId ∧
    sampleEvent.Raw.Removed = false ∧
    (handleMessageProcessedEvent timeoutEnv crawlIndexer Context.background 1
      sampleEvent true emptyWorld).err = some (GoError.base "context deadline exceeded") ∧
    (handleMessageProcessedEvent timeoutEnv crawlIndexer Context.background 1
      sampleEvent true emptyWorld).err ≠ none := by
  decide

/-- C3, amended: in past-block-crawl mode, an event that passes the chain and
removed checks is never persisted or published, for every confirmation flag and
every collaborator behaviour; the handler returns `nil` exactly when the
confirmation wait is not requested or succeeds, and otherwise returns the
waiter's error.  In live-watch mode with all collaborators succeeding the same
event is persisted once and published once and the handler returns `nil`. -/
theorem crawl_mode_suppresses_persist_and_publish {σ : Type} (env : Env σ) (i : Indexer)
    (ctx : Context) (chainID : Int) (event : BridgeMessageProcessed)
    (waitForConfirmations : Bool) (w : σ)
    (hc : (event.Message.DestChainId : Int) = i.srcChainId)
    (hr : event.Raw.Removed = false)
    (hm : i.watchMode = WatchMode.CrawlPastBlocks) :
    saveCalls (handleMessageProcessedEvent env i ctx chainID event waitForConfirmations w).steps = 0 ∧
    publishCalls (handleMessageProcessedEvent env i ctx chainID event waitForConfirmations w).steps = 0 ∧
    ((handleMessageProcessedEvent env i ctx chainID event waitForConfirmations w).err = none ↔
      (waitForConfirmations = false ∨
        (env.WaitConfirmations (waitRequest env i ctx event) w).1 = none)) ∧
    (waitForConfirmations = true →
      (env.WaitConfirmations (waitRequest env i ctx event) w).1 ≠ none →
      (handleMessageProcessedEvent env i ctx chainID event waitForConfirmations w).err
        = (env.WaitConfirmations (waitRequest env i ctx event) w).1) ∧
    (env.AllSucceed →
      (handleMessageProcessedEvent env { i with watchMode := WatchMode.LiveWatch } ctx chainID
        event waitForConfirmations w).err = none ∧
      saveCalls (handleMessageProcessedEvent env { i with watchMode := WatchMode.LiveWatch }
        ctx chainID event waitForConfirmations w).steps = 1 ∧
      publishCalls (handleMessageProcessedEvent env { i with watchMode := WatchMode.LiveWatch }
        ctx chainID event waitForConfirmations w).steps = 1) := by
  refine ⟨?_, ?_, ?_, ?_, ?_⟩
  case refine_5 =>
    intro hall
    exact handle_live_all_succeed env { i with watchMode := WatchMode.LiveWatch } ctx chainID
      event waitForConfirmations w hc hr (by simp) hall
  all_goals
    rcases handle_cases env i ctx chainID event waitForConfirmations w with
      ⟨hskip, _⟩ | ⟨_, _, hwait, e, hw, hrun⟩ | ⟨_, _, done, w1, hdone, hrun⟩
    · rcases hskip with hskip | hskip
      · exact absurd hc hskip
      · rw [hr] at hskip
        exact absurd hskip (by decide)
    · rw [hrun]
      simp [saveCalls, publishCalls, Step.isSave, Step.isPublish, hwait, hw]
    · rw [hrun, afterConfirmations_crawl env i ctx chainID event done w1 hm]
      rcases hdone with ⟨hwait, hd, _⟩ | ⟨hwait, hw, hd, _⟩
      · simp [hd, saveCalls, publishCalls, hwait]
      · simp [hd, saveCalls, publishCalls, Step.isSave, Step.isPublish, hwait, hw]

/-- Instance of C3 (amended): the sample event under the crawl indexer, and the
same event under the live indexer with every collaborator succeeding. -/
theorem crawl_mode_suppresses_persist_and_publish_witness :
    ((sampleEvent.Message.DestChainId : Int) = crawlIndexer.srcChainId ∧
      sampleEvent.Raw.Removed = false ∧
      crawlIndexer.watchMode = WatchMode.CrawlPastBlocks) ∧
    (saveCalls (handleMessageProcessedEvent happyEnv crawlIndexer Context.background 1
        sampleEvent true emptyWorld).steps = 0 ∧
      publishCalls (handleMessageProcessedEvent happyEnv crawlIndexer Context.background 1
        sampleEvent true emptyWorld).steps = 0) ∧
    ((handleMessageProcessedEvent happyEnv liveIndexer Context.background 1
        sampleEvent true emptyWorld).err = none ∧
      saveCalls (handleMessageProcessedEvent happyEnv liveIndexer Context.background 1
        sampleEvent true emptyWorld).steps = 1 ∧
      publishCalls (handleMessageProcessedEvent happyEnv liveIndexer Context.background 1
        sampleEvent true emptyWorld).steps = 1) :=
  ⟨⟨by decide, by decide, by decide⟩,
    ⟨(crawl_mode_suppresses_persist_and_publish happyEnv crawlIndexer Context.background 1
        sampleEvent true emptyWorld (by decide) (by decide) (by decide)).1,
      (crawl_mode_suppresses_persist_and_publish happyEnv crawlIndexer Context.background 1
        sampleEvent true emptyWorld (by decide) (by decide) (by decide)).2.1⟩,
    (crawl_mode_suppresses_persist_and_publish happyEnv crawlIndexer Context.background 1
      sampleEvent true emptyWorld (by decide) (by decide) (by decide)).2.2.2.2
      happyEnv_allSucceed⟩

/-! ## Persist, then publish -/

/-- C5: when `saveEventToDB` is called and returns record identifier `id`,
then in that run `saveEventToDB` is called exactly once and `queue.Publish`
exactly once, after the persist call, with the serialization of
`QueueMessageProcessedBody{ID: id, Event: event}` as its message, `id` being the
identifier that persist call returned and `event` the event passed in, on the
indexer's queue name with `nil` headers; the handler's result is that of the
publish call (wrapped when it is an error, `nil` otherwise). -/
theorem persist_once_then_publish_once {σ : Type} (env : Env σ) (i : Indexer)
    (ctx : Context) (chainID : Int) (event : BridgeMessageProcessed)
    (waitForConfirmations : Bool) (w : σ) (req : SaveRequest) (id : Int)
    (hsave : Step.saveEventToDB req (Sum.inr id)
      ∈ (handleMessageProcessedEvent env i ctx chainID event waitForConfirmations w).steps) :
    saveCalls (handleMessageProcessedEvent env i ctx chainID event waitForConfirmations w).steps = 1 ∧
    publishCalls (handleMessageProcessedEvent env i ctx chainID event waitForConfirmations w).steps = 1 ∧
    ∃ pre payload result,
      env.jsonMarshalBody ⟨id, event⟩ = Sum.inr payload ∧
      (handleMessageProcessedEvent env i ctx chainID event waitForConfirmations w).steps
        = pre ++ [Step.saveEventToDB req (Sum.inr id),
            Step.jsonMarshalBody ⟨id, event⟩ (Sum.inr payload),
            Step.Publish ⟨ctx, env.queueName i, payload, none⟩ result] ∧
      saveCalls pre = 0 ∧ publishCalls pre = 0 ∧
      (handleMessageProcessedEvent env i ctx chainID event waitForConfirmations w).err
        = errorsWrap result "i.queue.Publish" := by
  rcases handle_cases env i ctx chainID event waitForConfirmations w with
    ⟨_, hrun⟩ | ⟨_, _, _, e, _, hrun⟩ | ⟨_, _, done, w1, hdone, hrun⟩
  · rw [hrun] at hsave
    simp at hsave
  · rw [hrun] at hsave
    simp at hsave
  · have hd : saveCalls done = 0 ∧ publishCalls done = 0 ∧
        Step.saveEventToDB req (Sum.inr id) ∉ done := by
      rcases hdone with ⟨_, hd, _⟩ | ⟨_, _, hd, _⟩ <;>
        simp [hd, saveCalls, publishCalls, Step.isSave, Step.isPublish]
    obtain ⟨hd1, hd2, hd3⟩ := hd
    rw [hrun] at hsave ⊢
    by_cases hm : i.watchMode = WatchMode.CrawlPastBlocks
    · rw [afterConfirmations_crawl env i ctx chainID event done w1 hm] at hsave
      exact absurd hsave hd3
    · rw [afterConfirmations_live env i ctx chainID event done w1 hm] at hsave ⊢
      simp only [saveCalls, publishCalls] at hd1 hd2
      rcases persistAndPublish_cases env i ctx chainID event done w1 with
        ⟨e, _, h⟩ | ⟨m, e, _, _, h⟩ | ⟨m, id1, e, hev, _, h3, h⟩ |
        ⟨m, id1, b, e, _, _, h3, _, h⟩ | ⟨m, id1, b, _, _, h3, _, h⟩
      · rw [h] at hsave
        simp [hd3] at hsave
      · rw [h] at hsave
        simp [hd3] at hsave
      · obtain ⟨p, hp⟩ := env.jsonMarshalBody_of_event id1 event m hev
        rw [hp] at h3
        simp at h3
      · rw [h] at hsave
        simp [hd3] at hsave
        obtain ⟨hreq, hid⟩ := hsave
        subst hid
        rw [h]
        refine ⟨?_, ?_, done ++ [Step.jsonMarshalEvent event (Sum.inr m)], b, some e, h3,
          ?_, ?_, ?_, ?_⟩
        · simp [saveCalls, List.countP_append, List.countP_cons, Step.isSave, hd1]
        · simp [publishCalls, List.countP_append, List.countP_cons, Step.isPublish, hd2]
        · simp [hreq, publishRequest]
        · simp [saveCalls, List.countP_append, List.countP_cons, Step.isSave, hd1]
        · simp [publishCalls, List.countP_append, List.countP_cons, Step.isPublish, hd2]
        · simp [errorsWrap]
      · rw [h] at hsave
        simp [hd3] at hsave
        obtain ⟨hreq, hid⟩ := hsave
        subst hid
        rw [h]
        refine ⟨?_, ?_, done ++ [Step.jsonMarshalEvent event (Sum.inr m)], b, none, h3,
          ?_, ?_, ?_, ?_⟩
        · simp [saveCalls, List.countP_append, List.countP_cons, Step.isSave, hd1]
        · simp [publishCalls, List.countP_append, List.countP_cons, Step.isPublish, hd2]
        · simp [hreq, publishRequest]
        · simp [saveCalls, List.countP_append, List.countP_cons, Step.isSave, hd1]
        · simp [publishCalls, List.countP_append, List.countP_cons, Step.isPublish, hd2]
        · simp [errorsWrap]

/-- Instance of C5, the end-to-end scenario: destination chain `1` equals the
source chain, not removed, live watch, confirmations required and succeeding at
once, the store returning record `1`: one persist call, one publish call
carrying the serialized `{ID: 1, event}`, and overall success. -/
theorem persist_once_then_publish_once_witness :
    Step.saveEventToDB
        (saveRequest happyEnv Context.background 1 sampleEvent (encodeEvent sampleEvent))
        (Sum.inr 1)
      ∈ (handleMessageProcessedEvent happyEnv liveIndexer Context.background 1
          sampleEvent true emptyWorld).steps ∧
    (handleMessageProcessedEvent happyEnv liveIndexer Context.background 1
      sampleEvent true emptyWorld).err = none ∧
    Step.Publish ⟨Context.background, "1-queue", 1 :: encodeEvent sampleEvent, none⟩ none
      ∈ (handleMessageProcessedEvent happyEnv liveIndexer Context.background 1
          sampleEvent true emptyWorld).steps ∧
    (saveCalls (handleMessageProcessedEvent happyEnv liveIndexer Context.background 1
        sampleEvent true emptyWorld).steps = 1 ∧
      publishCalls (handleMessageProcessedEvent happyEnv liveIndexer Context.background 1
        sampleEvent true emptyWorld).steps = 1 ∧
      ∃ pre payload result,
        happyEnv.jsonMarshalBody ⟨1, sampleEvent⟩ = Sum.inr payload ∧
        (handleMessageProcessedEvent happyEnv liveIndexer Context.background 1
          sampleEvent true emptyWorld).steps
          = pre ++ [Step.saveEventToDB
                (saveRequest happyEnv Context.background 1 sampleEvent (encodeEvent sampleEvent))
                (Sum.inr 1),
              Step.jsonMarshalBody ⟨1, sampleEvent⟩ (Sum.inr payload),
              Step.Publish
                ⟨Context.background, happyEnv.queueName liveIndexer, payload, none⟩ result] ∧
        saveCalls pre = 0 ∧ publishCalls pre = 0 ∧
        (handleMessageProcessedEvent happyEnv liveIndexer Context.background 1
          sampleEvent true emptyWorld).err = errorsWrap result "i.queue.Publish") :=
  ⟨by decide, by decide, by decide,
    persist_once_then_publish_once happyEnv liveIndexer Context.background 1 sampleEvent true
      emptyWorld
      (saveRequest happyEnv Context.background 1 sampleEvent (encodeEvent sampleEvent))
      1 (by decide)⟩

/-! ## Reported errors -/

/-- C7 at its failing input: on a live-watch event for chain `1` with
confirmations requested, a waiter error "context deadline exceeded" is returned
as it is, with no annotation naming the step, whereas a store error on the same
event comes back wrapped with `"i.saveEventToDB"` and a queue error wrapped
with `"i.queue.Publish"`. -/
theorem wait_failure_is_returned_unwrapped :
    (handleMessageProcessedEvent timeoutEnv liveIndexer Context.background 1
      sampleEvent true emptyWorld).err = some (GoError.base "context deadline exceeded") ∧
    ((handleMessageProcessedEvent timeoutEnv liveIndexer Context.background 1
      sampleEvent true emptyWorld).err.bind GoError.outerMessage) = none ∧
    (handleMessageProcessedEvent timeoutEnv liveIndexer Context.background 1
      sampleEvent true emptyWorld).steps
      = [Step.WaitConfirmations ⟨Context.withTimeout Context.background 180, 0, 5, 0x99⟩
          (some (GoError.base "context deadline exceeded"))] ∧
    (handleMessageProcessedEvent saveFailEnv liveIndexer Context.background 1
      sampleEvent true emptyWorld).err
      = some (GoError.withMessage (GoError.base "db unavailable") "i.saveEventToDB") ∧
    (handleMessageProcessedEvent publishFailEnv liveIndexer Context.background 1
      sampleEvent true emptyWorld).err
      = some (GoError.withMessage (GoError.base "broker unavailable") "i.queue.Publish") := by
  decide

/-- C8: the handler never swallows a collaborator error.  It returns `nil` if
and only if the event is skipped by validation (wrong chain, removed, or
past-block-crawl mode) with no invoked call having failed, or every call it
made returned success; a call that returned an error is the last call of the
run and the handler then returns a non-nil error (the one that call reports);
in particular after a failed `saveEventToDB` there is no `queue.Publish`. -/
theorem errors_are_never_swallowed {σ : Type} (env : Env σ) (i : Indexer) (ctx : Context)
    (chainID : Int) (event : BridgeMessageProcessed) (waitForConfirmations : Bool) (w : σ) :
    ((handleMessageProcessedEvent env i ctx chainID event waitForConfirmations w).err = none ↔
      ((((event.Message.DestChainId : Int) ≠ i.srcChainId ∨ event.Raw.Removed = true ∨
            i.watchMode = WatchMode.CrawlPastBlocks) ∧
          ∀ s ∈ (handleMessageProcessedEvent env i ctx chainID event waitForConfirmations w).steps,
            s.failed = false) ∨
        ∀ s ∈ (handleMessageProcessedEvent env i ctx chainID event waitForConfirmations w).steps,
          s.failed = false)) ∧
    (∀ pre s post,
      (handleMessageProcessedEvent env i ctx chainID event waitForConfirmations w).steps
        = pre ++ s :: post →
      s.failed = true →
      (handleMessageProcessedEvent env i ctx chainID event waitForConfirmations w).err ≠ none ∧
      (handleMessageProcessedEvent env i ctx chainID event waitForConfirmations w).err
        = s.reported ∧
      post = []) ∧
    (∀ req e,
      Step.saveEventToDB req (Sum.inl e)
        ∈ (handleMessageProcessedEvent env i ctx chainID event waitForConfirmations w).steps →
      publishCalls
        (handleMessageProcessedEvent env i ctx chainID event waitForConfirmations w).steps = 0) := by
  rcases handle_failsOnlyLast env i ctx chainID event waitForConfirmations w with
    ⟨hall, herr⟩ | ⟨pre0, s0, hst, hpre, hfail0, hrep, hne, hpub⟩
  · refine ⟨?_, ?_, ?_⟩
    · exact ⟨fun _ => Or.inr hall, fun _ => herr⟩
    · intro pre s post hsteps hfail
      have hmem : s ∈ (handleMessageProcessedEvent env i ctx chainID event
          waitForConfirmations w).steps := by
        rw [hsteps]; simp
      rw [hall s hmem] at hfail
      exact absurd hfail (by decide)
    · intro req e hmem
      have := hall _ hmem
      simp [Step.failed] at this
  · have hbad : ¬ ∀ s ∈ (handleMessageProcessedEvent env i ctx chainID event
        waitForConfirmations w).steps, s.failed = false := by
      intro hall
      have := hall s0 (by rw [hst]; simp)
      rw [hfail0] at this
      exact absurd this (by decide)
    refine ⟨?_, ?_, ?_⟩
    · constructor
      · intro h
        exact absurd h hne
      · rintro (⟨_, hall⟩ | hall)
        · exact absurd hall hbad
        · exact absurd hall hbad
    · intro pre s post hsteps hfail
      rw [hst] at hsteps
      have hpost : post = [] ∧ s = s0 := by
        rcases List.append_eq_append_iff.1 hsteps with ⟨a, ha, hb⟩ | ⟨c, hc, hd⟩
        · cases a with
          | nil =>
            simp at hb
            exact ⟨hb.2, hb.1.symm⟩
          | cons x xs =>
            simp at hb
        · cases c with
          | nil =>
            simp at hd
            exact ⟨hd.2, hd.1⟩
          | cons x xs =>
            simp at hd
            have hx : s ∈ pre0 := by
              rw [hc, hd.1]; simp
            rw [hpre s hx] at hfail
            exact absurd hfail (by decide)
      rw [hpost.2]
      exact ⟨hne, hrep, hpost.1⟩
    · intro req e hmem
      rw [hst] at hmem ⊢
      rcases List.mem_append.1 hmem with hmem | hmem
      · have := hpre _ hmem
        simp [Step.failed] at this
      · simp at hmem
        simp only [publishCalls] at hpub
        simp [publishCalls, List.countP_append, hpub, ← hmem, Step.isPublish]

/-- C10: every `saveEventToDB` call of a run carries the JSON serialization of
the event, the marker `"0x"`, the `chainID` argument, the kind code `1`, the hex
string of `event.Message.SrcOwner`, and `event.Message.Data`,
`event.Message.Value` and `event.Raw.BlockNumber` unchanged; every
`queue.Publish` call goes to the indexer's `queueName()` with the serialized
`{ID, Event}` body, `ID` being the identifier the store returned, and `nil`
headers. -/
theorem requests_carry_the_event_fields {σ : Type} (env : Env σ) (i : Indexer)
    (ctx : Context) (chainID : Int) (event : BridgeMessageProcessed)
    (waitForConfirmations : Bool) (w : σ) :
    (∀ req res,
      Step.saveEventToDB req res
        ∈ (handleMessageProcessedEvent env i ctx chainID event waitForConfirmations w).steps →
      ∃ marshaled, env.jsonMarshalEvent event = Sum.inr marshaled ∧
        req = ⟨ctx, marshaled, "0x", chainID, 1, env.addressHex event.Message.SrcOwner,
          event.Message.Data, event.Message.Value, event.Raw.BlockNumber⟩) ∧
    (∀ preq res,
      Step.Publish preq res
        ∈ (handleMessageProcessedEvent env i ctx chainID event waitForConfirmations w).steps →
      ∃ sreq id body,
        Step.saveEventToDB sreq (Sum.inr id)
          ∈ (handleMessageProcessedEvent env i ctx chainID event waitForConfirmations w).steps ∧
        env.jsonMarshalBody ⟨id, event⟩ = Sum.inr body ∧
        preq = ⟨ctx, env.queueName i, body, none⟩) := by
  constructor
  · intro req res hmem
    obtain ⟨m, hm, hreq⟩ :=
      handle_of_save_logged env i ctx chainID event waitForConfirmations w req res hmem
    exact ⟨m, hm, hreq⟩
  · intro preq res hmem
    obtain ⟨done, m, id, b, w0, _, _, hb, hreq, _, hsteps, _⟩ :=
      handle_of_publish_logged env i ctx chainID event waitForConfirmations w preq res hmem
    refine ⟨saveRequest env ctx chainID event m, id, b, ?_, hb, hreq⟩
    rw [hsteps]
    simp

/-- Instance of C10 on the all-succeeding run: the one write request and the
one publish request, field by field. -/
theorem requests_carry_the_event_fields_witness :
    (Step.saveEventToDB
        ⟨Context.background, encodeEvent sampleEvent, "0x", 1, 1, "0xabc", [1, 2, 3], 7, 42⟩
        (Sum.inr 1)
      ∈ (handleMessageProcessedEvent happyEnv liveIndexer Context.background 1
          sampleEvent true emptyWorld).steps ∧
      Step.Publish ⟨Context.background, "1-queue", 1 :: encodeEvent sampleEvent, none⟩ none
      ∈ (handleMessageProcessedEvent happyEnv liveIndexer Context.background 1
          sampleEvent true emptyWorld).steps) ∧
    (∃ marshaled, happyEnv.jsonMarshalEvent sampleEvent = Sum.inr marshaled ∧
      (⟨Context.background, encodeEvent sampleEvent, "0x", 1, 1, "0xabc", [1, 2, 3], 7, 42⟩ :
        SaveRequest)
        = ⟨Context.background, marshaled, "0x", 1, 1,
            happyEnv.addressHex sampleEvent.Message.SrcOwner, sampleEvent.Message.Data,
            sampleEvent.Message.Value, sampleEvent.Raw.BlockNumber⟩) :=
  ⟨⟨by decide, by decide⟩,
    (requests_carry_the_event_fields happyEnv liveIndexer Context.background 1 sampleEvent true
      emptyWorld).1 _ (Sum.inr 1) (by decide)⟩

end Relayer
